import Mathlib

/-!
Verification of the `TypedEventEmitter` class from the typed-emit repository.

The emitter stores listeners in `private listeners = new Map<string, Set<(payload) => unknown>>()`.
We model this with a `Bus` state:
  * listener functions are identified by a `Nat` (JS removal is identity-based);
  * each JS `Set` object is a heap cell: `store` maps a set identifier to the
    ordered list of listener ids it currently holds (JS `Set` preserves
    insertion order and never holds duplicates);
  * `registry` maps the stringified event key to the identifier of the set
    currently installed for that key (`this.listeners`).
Modelling the sets as separate heap cells is essential: the unsubscribe
closure returned by `on` captures the *set object* (together with the key and
the listener), not the registry entry, and keeps mutating that same object
even after `clear`/`off` have dropped or replaced the registry entry.

Payload values are modelled by a small JS-value type `Val`; the rest-parameter
`...payload` of `emit`/`emitAsync` is a `List Val` and `payload[0]` on an
empty list is `undefined`, exactly as in JavaScript.
-/

namespace TypedEmit

/-- A small universe of JavaScript runtime values, enough to distinguish
`undefined` from data payloads. -/
inductive Val where
  | undef : Val
  | num : Int → Val
  | str : String → Val
  deriving DecidableEq

/-- The data captured by the unsubscribe closure returned by `on`:
`set` (here by identifier), `key` and `listener`. -/
structure Tok where
  sid : Nat
  key : String
  lid : Nat
  deriving DecidableEq

/-- The mutable state of a `TypedEventEmitter`:
`registry` is the `Map<string, Set<…>>` (key → identifier of its current set),
`store` is the heap of `Set` objects (identifier → ordered member list) —
a set object can outlive its registry entry because closures retain it —
and `nextSet` is a freshness counter for allocating set objects. -/
structure Bus where
  registry : List (String × Nat)
  store : List (Nat × List Nat)
  nextSet : Nat
  deriving DecidableEq

/-- Association-list lookup for the registry (`this.listeners.get(key)`). -/
def findSid : List (String × Nat) → String → Option Nat
  | [], _ => none
  | (k, s) :: rest, key => if k = key then some s else findSid rest key

/-- Association-list removal for the registry (`this.listeners.delete(key)`). -/
def eraseKey : List (String × Nat) → String → List (String × Nat)
  | [], _ => []
  | (k, s) :: rest, key => if k = key then rest else (k, s) :: eraseKey rest key

/-- Heap lookup of a set object by identifier. -/
def findSet : List (Nat × List Nat) → Nat → Option (List Nat)
  | [], _ => none
  | (i, v) :: rest, sid => if i = sid then some v else findSet rest sid

/-- Replace (or, if absent, install) the contents of the set object `sid`. -/
def updateAssoc : List (Nat × List Nat) → Nat → List Nat → List (Nat × List Nat)
  | [], sid, v => [(sid, v)]
  | (i, w) :: rest, sid, v =>
    if i = sid then (sid, v) :: rest else (i, w) :: updateAssoc rest sid v

/-- The current member list of set object `sid` (empty if unallocated). -/
def getSet (b : Bus) (sid : Nat) : List Nat :=
  (findSet b.store sid).getD []

/-- Overwrite the contents of set object `sid` in the heap. -/
def setStore (b : Bus) (sid : Nat) (v : List Nat) : Bus :=
  { b with store := updateAssoc b.store sid v }

/-- A freshly constructed emitter: empty registry, no set objects. -/
def Bus.empty : Bus := ⟨[], [], 0⟩

/-- `on(event, listener)`: ensure a set exists for the key, add the listener
(a JS `Set.add` is a no-op when the element is already present, otherwise it
appends in insertion order), and return the unsubscribe closure's captured
data `(set, key, listener)`. -/
def Bus.on (b : Bus) (key : String) (lid : Nat) : Bus × Tok :=
  match findSid b.registry key with
  | some sid =>
    let s := getSet b sid
    let s' := if lid ∈ s then s else s ++ [lid]
    (setStore b sid s', ⟨sid, key, lid⟩)
  | none =>
    let sid := b.nextSet
    (⟨b.registry ++ [(key, sid)], updateAssoc b.store sid [lid], sid + 1⟩,
      ⟨sid, key, lid⟩)

/-- `off(event, listener)`: look the key up in the registry, delete the
listener from that set, and drop the key when the set became empty.
Returns whether a listener was actually removed. -/
def Bus.off (b : Bus) (key : String) (lid : Nat) : Bus × Bool :=
  match findSid b.registry key with
  | none => (b, false)
  | some sid =>
    let s := getSet b sid
    let removed := decide (lid ∈ s)
    let s' := s.erase lid
    let b' := setStore b sid s'
    (if s' = [] then { b' with registry := eraseKey b'.registry key } else b',
      removed)

/-- Calling the unsubscribe closure returned by `on`:
`set.delete(listener); if (set.size === 0) this.listeners.delete(key)`.
It mutates the captured set object and, when that object became empty,
deletes whatever the registry *currently* maps at the captured key. -/
def Bus.unsub (b : Bus) (t : Tok) : Bus :=
  let s := getSet b t.sid
  let s' := s.erase t.lid
  let b' := setStore b t.sid s'
  if s' = [] then { b' with registry := eraseKey b'.registry t.key } else b'

/-- `clear(event?)`: drop one registry entry, or the whole registry.
The set objects themselves survive in the heap — closures still hold them. -/
def Bus.clear (b : Bus) (key : Option String) : Bus :=
  match key with
  | none => { b with registry := [] }
  | some k => { b with registry := eraseKey b.registry k }

/-- `listenerCount(event)`: the size of the current set, or 0. -/
def Bus.listenerCount (b : Bus) (key : String) : Nat :=
  match findSid b.registry key with
  | some sid => (getSet b sid).length
  | none => 0

/-- `hasListeners(event)`: `listenerCount(event) > 0`. -/
def Bus.hasListeners (b : Bus) (key : String) : Bool :=
  b.listenerCount key > 0

/-- The ordered snapshot `Array.from(set)` that `emit`/`emitAsync` take at
emission start (empty when the key is absent). -/
def Bus.snapshot (b : Bus) (key : String) : List Nat :=
  match findSid b.registry key with
  | some sid => getSet b sid
  | none => []

/-- The `EmitOutcome` type of `emitAsync`:
`{ ok: true; value }` or `{ ok: false; error }`. -/
inductive Outcome where
  | ok : Val → Outcome
  | err : Val → Outcome
  deriving DecidableEq

/-- A registry mutation a listener body may perform while an emission is in
flight: call `on`, `off`, `clear`, or one of the unsubscribe closures. -/
inductive RAct where
  | ron : String → Nat → RAct
  | roff : String → Nat → RAct
  | rclear : Option String → RAct
  | runsub : Tok → RAct

/-- The behaviour of one listener function: the registry mutations its body
performs when invoked with a payload, and its result — `.ok v` for a normal
return (or resolved promise) of `v`, `.error e` for a throw (or rejection)
of `e`. -/
structure LBeh where
  acts : Val → List RAct
  res : Val → Except Val Val

/-- Execute one registry mutation performed by a listener body. -/
def applyRAct (b : Bus) : RAct → Bus
  | .ron k lid => (b.on k lid).1
  | .roff k lid => (b.off k lid).1
  | .rclear ko => b.clear ko
  | .runsub t => b.unsub t

/-- Execute a listener body's registry mutations in order. -/
def applyRActs (b : Bus) (as : List RAct) : Bus :=
  as.foldl applyRAct b

/-- Invoke one listener: its body's mutations run against the bus and its
result is the listener's return or thrown value. -/
def runListener (env : Nat → LBeh) (b : Bus) (lid : Nat) (p : Val) :
    Bus × Except Val Val :=
  (applyRActs b ((env lid).acts p), (env lid).res p)

/-- The `listeners.forEach((l) => l(data))` loop of `emit` over the snapshot:
invokes the listeners in order, records each invocation `(listener, payload)`,
and stops at — and propagates — the first thrown error. -/
def emitGo (env : Nat → LBeh) (p : Val) :
    List Nat → Bus → Bus × List (Nat × Val) × Option Val
  | [], b => (b, [], none)
  | lid :: rest, b =>
    match runListener env b lid p with
    | (b1, .error e) => (b1, [(lid, p)], some e)
    | (b1, .ok _) =>
      let r := emitGo env p rest b1
      (r.1, (lid, p) :: r.2.1, r.2.2)

/-- `emit(event, ...payload)`: look up the key, take the snapshot, read
`payload[0]` (which is `undefined` when the rest parameter is empty), and
invoke the snapshot in order. Returns the final bus, the invocation record,
and the error that propagated to the caller, if any. -/
def Bus.emit (b : Bus) (key : String) (env : Nat → LBeh) (payload : List Val) :
    Bus × List (Nat × Val) × Option Val :=
  match findSid b.registry key with
  | none => (b, [], none)
  | some sid => emitGo env (payload.getD 0 Val.undef) (getSet b sid) b

/-- How `emitAsync` settles one listener: the two-handler `.then` turns a
resolved value `v` into `{ ok: true, value: v }` and a thrown or rejected
error `e` into `{ ok: false, error: e }`, preserving the original error. -/
def settle (env : Nat → LBeh) (p : Val) (lid : Nat) : Outcome :=
  match (env lid).res p with
  | .ok v => Outcome.ok v
  | .error e => Outcome.err e

/-- The listener loop of `emitAsync`: every snapshot member is invoked (each
wrapped in its own `Promise.resolve().then(...)`, so the bodies run as
microtasks in snapshot order) and every one produces exactly one outcome;
a failure neither stops the loop nor disturbs sibling outcomes. -/
def emitAsyncGo (env : Nat → LBeh) (p : Val) :
    List Nat → Bus → Bus × List (Nat × Val) × List Outcome
  | [], b => (b, [], [])
  | lid :: rest, b =>
    let st := runListener env b lid p
    let o := match st.2 with
      | .ok v => Outcome.ok v
      | .error e => Outcome.err e
    let r := emitAsyncGo env p rest st.1
    (r.1, (lid, p) :: r.2.1, o :: r.2.2)

/-- `emitAsync(event, ...payload)`: `if (!set) return []`, else snapshot,
run every listener, and resolve with one `EmitOutcome` per snapshot member
in snapshot (registration) order — `Promise.all` keeps index order. -/
def Bus.emitAsync (b : Bus) (key : String) (env : Nat → LBeh)
    (payload : List Val) : Bus × List (Nat × Val) × List Outcome :=
  match findSid b.registry key with
  | none => (b, [], [])
  | some sid => emitAsyncGo env (payload.getD 0 Val.undef) (getSet b sid) b

/-! ### A deeper interpreter, for `once` wrappers and re-entrant emission

The flat model above cannot express a listener that itself calls `emit`
(re-entrancy), nor the `once` wrapper
`(payload) => { try { listener(payload) } finally { unsubscribe() } }`.
The fueled interpreter below adds both. -/

/-- A bus call a listener body may perform, now including nested `emit`. -/
inductive XAct where
  | xon : String → Nat → XAct
  | xoff : String → Nat → XAct
  | xclear : Option String → XAct
  | xunsub : Tok → XAct
  | xemit : String → List Val → XAct

/-- What kind of function a listener id denotes: a plain listener with a body
(bus calls, then a return or a throw), or the wrapper that `once` registers,
which invokes its inner listener inside `try`/`finally` and applies the
captured unsubscribe closure in the `finally`. -/
inductive LKind where
  | plain : (Val → List XAct) → (Val → Except Val Val) → LKind
  | wrap : Nat → Tok → LKind

/-- Observable events of a run: a listener invocation with its payload, and
the snapshot an emission takes at its start. -/
inductive Ev where
  | invoke : Nat → Val → Ev
  | snap : String → List Nat → Ev
  deriving DecidableEq

/-- A pending piece of work for the interpreter. -/
inductive Req where
  | inv : Nat → Val → Req
  | acts : List XAct → Req
  | emitTo : String → List Val → Req
  | seqInv : List Nat → Val → Req

/-- Fueled interpreter. Returns `none` when out of fuel, otherwise the final
bus, the event trace, and `.ok`/`.error` like a JS call that returns or
throws. `.inv` invokes one listener (a wrapper first invokes its inner
listener, then — whether it returned or threw — applies its captured
unsubscribe closure, re-raising the inner error, exactly like
`try { listener(payload) } finally { unsubscribe() }`); `.acts` runs a body's
bus calls, aborting at a nested emission's escaping error; `.emitTo` is
`emit`: it does nothing for an absent key, else snapshots and invokes the
snapshot in order (`.seqInv`), stopping at the first thrown error, which
escapes to the caller. -/
def interp : Nat → (Nat → LKind) → Bus → Req →
    Option (Bus × List Ev × Except Val Val)
  | 0, _, _, _ => none
  | fuel + 1, env, b, r =>
    match r with
    | .inv lid p =>
      match env lid with
      | .plain body res =>
        match interp fuel env b (.acts (body p)) with
        | none => none
        | some (b1, tr, .ok _) => some (b1, Ev.invoke lid p :: tr, res p)
        | some (b1, tr, .error e) => some (b1, Ev.invoke lid p :: tr, .error e)
      | .wrap inner t =>
        match interp fuel env b (.inv inner p) with
        | none => none
        | some (b1, tr, r2) =>
          some (b1.unsub t, Ev.invoke lid p :: tr,
            match r2 with
            | .ok _ => .ok Val.undef
            | .error e => .error e)
    | .acts [] => some (b, [], .ok Val.undef)
    | .acts (a :: rest) =>
      let step : Option (Bus × List Ev × Except Val Val) :=
        match a with
        | .xon k lid => some ((b.on k lid).1, [], .ok Val.undef)
        | .xoff k lid => some ((b.off k lid).1, [], .ok Val.undef)
        | .xclear ko => some (b.clear ko, [], .ok Val.undef)
        | .xunsub t => some (b.unsub t, [], .ok Val.undef)
        | .xemit k pay => interp fuel env b (.emitTo k pay)
      match step with
      | none => none
      | some (b1, tr1, .error e) => some (b1, tr1, .error e)
      | some (b1, tr1, .ok _) =>
        match interp fuel env b1 (.acts rest) with
        | none => none
        | some (b2, tr2, r2) => some (b2, tr1 ++ tr2, r2)
    | .emitTo k pay =>
      match findSid b.registry k with
      | none => some (b, [], .ok Val.undef)
      | some sid =>
        match interp fuel env b (.seqInv (getSet b sid) (pay.getD 0 Val.undef)) with
        | none => none
        | some (b1, tr, r2) => some (b1, Ev.snap k (getSet b sid) :: tr, r2)
    | .seqInv [] _ => some (b, [], .ok Val.undef)
    | .seqInv (l :: rest) p =>
      match interp fuel env b (.inv l p) with
      | none => none
      | some (b1, tr1, .error e) => some (b1, tr1, .error e)
      | some (b1, tr1, .ok _) =>
        match interp fuel env b1 (.seqInv rest p) with
        | none => none
        | some (b2, tr2, r2) => some (b2, tr1 ++ tr2, r2)

/-! ### Reachable registry states

Client code drives the emitter through `on`, `once`, `off`, `clear` and the
unsubscribe closures handed out by `on`/`once` (`emit`/`emitAsync` mutate the
registry only through the bus calls their listeners make, which are exactly
these operations again, with unsubscribe closures taken from earlier
registrations — so closing the reachable set under the operations below also
closes it under emissions). A program refers to unsubscribe closures by their
position in the log of handed-out tokens. -/

/-- One client-visible registry operation. `oonce` registers the fresh
wrapper function that `once` creates (its registry effect is exactly `on` of
the wrapper, and the token that `once` both returns and captures in the
wrapper is the one `on` produced). `ounsub i` calls the `i`-th unsubscribe
closure handed out so far (out-of-range calls nothing). -/
inductive Op where
  | oon : String → Nat → Op
  | oonce : String → Nat → Op
  | ooff : String → Nat → Op
  | oclear : Option String → Op
  | ounsub : Nat → Op
  deriving DecidableEq

/-- A bus together with the log of unsubscribe closures handed out so far. -/
structure St where
  bus : Bus
  toks : List Tok
  deriving DecidableEq

/-- Apply one client operation. -/
def runOp (s : St) : Op → St
  | .oon k lid => ⟨((s.bus.on k lid)).1, s.toks ++ [(s.bus.on k lid).2]⟩
  | .oonce k w => ⟨((s.bus.on k w)).1, s.toks ++ [(s.bus.on k w).2]⟩
  | .ooff k lid => ⟨(s.bus.off k lid).1, s.toks⟩
  | .oclear ko => ⟨s.bus.clear ko, s.toks⟩
  | .ounsub i =>
    match s.toks.get? i with
    | some t => ⟨s.bus.unsub t, s.toks⟩
    | none => s

/-- Run a client program from a freshly constructed emitter. -/
def execP (prog : List Op) : St :=
  prog.foldl runOp ⟨Bus.empty, []⟩

/-! ### Basic facts about the emission loops -/

theorem emitAsyncGo_trace (env : Nat → LBeh) (p : Val) :
    ∀ (lids : List Nat) (b : Bus),
    (emitAsyncGo env p lids b).2.1 = lids.map (fun l => (l, p)) := by
  intro lids
  induction lids with
  | nil => intro b; rfl
  | cons l rest ih => intro b; simp [emitAsyncGo, ih]

theorem emitAsyncGo_fst (env : Nat → LBeh) (p : Val) (lids : List Nat) (b : Bus) :
    ((emitAsyncGo env p lids b).2.1).map Prod.fst = lids := by
  rw [emitAsyncGo_trace, List.map_map]
  exact List.map_id lids

theorem emitAsyncGo_outs (env : Nat → LBeh) (p : Val) :
    ∀ (lids : List Nat) (b : Bus),
    (emitAsyncGo env p lids b).2.2 = lids.map (settle env p) := by
  intro lids
  induction lids with
  | nil => intro b; rfl
  | cons l rest ih =>
    intro b
    simp only [emitAsyncGo, List.map_cons, ih]
    cases h : (env l).res p <;> simp [settle, runListener, h]

theorem emitGo_ok (env : Nat → LBeh) (p : Val) :
    ∀ (lids : List Nat) (b : Bus),
    (∀ l ∈ lids, ∃ v, (env l).res p = Except.ok v) →
    (emitGo env p lids b).2.1 = lids.map (fun l => (l, p)) ∧
    (emitGo env p lids b).2.2 = none := by
  intro lids
  induction lids with
  | nil => intro b _; exact ⟨rfl, rfl⟩
  | cons l rest ih =>
    intro b h
    obtain ⟨v, hv⟩ := h l (List.mem_cons_self l rest)
    have hr := ih (runListener env b l p).1 (fun l' hl' => h l' (List.mem_cons_of_mem l hl'))
    simp only [runListener] at hr
    simp [emitGo, runListener, hv, hr.1, hr.2]

theorem emitGo_err (env : Nat → LBeh) (p : Val) (le : Nat) (e : Val)
    (he : (env le).res p = Except.error e) :
    ∀ (pre suf : List Nat) (b : Bus),
    (∀ l ∈ pre, ∃ v, (env l).res p = Except.ok v) →
    (emitGo env p (pre ++ le :: suf) b).2.1 = (pre ++ [le]).map (fun l => (l, p)) ∧
    (emitGo env p (pre ++ le :: suf) b).2.2 = some e := by
  intro pre
  induction pre with
  | nil =>
    intro suf b _
    simp [emitGo, runListener, he]
  | cons l rest ih =>
    intro suf b h
    obtain ⟨v, hv⟩ := h l (List.mem_cons_self l rest)
    have hr := ih suf (runListener env b l p).1 (fun l' hl' => h l' (List.mem_cons_of_mem l hl'))
    simp only [runListener] at hr
    simp [emitGo, runListener, hv, hr.1, hr.2]

theorem emitGo_fst_sublist (env : Nat → LBeh) (p : Val) :
    ∀ (lids : List Nat) (b : Bus),
    List.Sublist ((emitGo env p lids b).2.1.map Prod.fst) lids := by
  intro lids
  induction lids with
  | nil => intro b; simp [emitGo]
  | cons l rest ih =>
    intro b
    simp only [emitGo]
    cases hr : runListener env b l p with
    | mk b1 r =>
      cases r with
      | error e => simp
      | ok v =>
        simp only [List.map_cons]
        exact List.Sublist.cons₂ l (ih b1)

theorem emitGo_payload (env : Nat → LBeh) (p : Val) :
    ∀ (lids : List Nat) (b : Bus),
    ∀ x ∈ (emitGo env p lids b).2.1, x.2 = p := by
  intro lids
  induction lids with
  | nil => intro b x hx; simp [emitGo] at hx
  | cons l rest ih =>
    intro b x hx
    simp only [emitGo] at hx
    cases hr : runListener env b l p with
    | mk b1 r =>
      cases r with
      | error e => rw [hr] at hx; simp at hx; rw [hx]
      | ok v =>
        rw [hr] at hx
        simp only [List.mem_cons] at hx
        cases hx with
        | inl h => rw [h]
        | inr h => exact ih b1 x h

theorem emitGo_pure (env : Nat → LBeh) (p : Val)
    (hpure : ∀ l p', (env l).acts p' = []) :
    ∀ (lids : List Nat) (b : Bus), (emitGo env p lids b).1 = b := by
  intro lids
  induction lids with
  | nil => intro b; rfl
  | cons l rest ih =>
    intro b
    simp only [emitGo, runListener, hpure, applyRActs, List.foldl_nil]
    cases h : (env l).res p <;> simp [ih]

theorem emitAsyncGo_pure (env : Nat → LBeh) (p : Val)
    (hpure : ∀ l p', (env l).acts p' = []) :
    ∀ (lids : List Nat) (b : Bus), (emitAsyncGo env p lids b).1 = b := by
  intro lids
  induction lids with
  | nil => intro b; rfl
  | cons l rest ih =>
    intro b
    simp [emitAsyncGo, runListener, hpure, applyRActs, ih]

theorem emitGo_none_trace (env : Nat → LBeh) (p : Val) :
    ∀ (lids : List Nat) (b : Bus),
    (emitGo env p lids b).2.2 = none →
    (emitGo env p lids b).2.1 = lids.map (fun l => (l, p)) := by
  intro lids
  induction lids with
  | nil => intro b _; rfl
  | cons l rest ih =>
    intro b h
    simp only [emitGo] at h ⊢
    cases hr : runListener env b l p with
    | mk b1 r =>
      cases r with
      | error e => rw [hr] at h; simp at h
      | ok v =>
        rw [hr] at h
        simp only at h
        simp [ih b1 h]

/-! ### Association-list lemmas -/

theorem findSet_updateAssoc_self :
    ∀ (st : List (Nat × List Nat)) (sid : Nat) (v : List Nat),
    findSet (updateAssoc st sid v) sid = some v := by
  intro st
  induction st with
  | nil => intro sid v; simp [updateAssoc, findSet]
  | cons e rest ih =>
    intro sid v
    by_cases h : e.1 = sid
    · simp [updateAssoc, findSet, h]
    · simp [updateAssoc, findSet, h, ih]

theorem findSet_updateAssoc_ne (sid' : Nat) :
    ∀ (st : List (Nat × List Nat)) (sid : Nat) (v : List Nat), sid' ≠ sid →
    findSet (updateAssoc st sid v) sid' = findSet st sid' := by
  intro st
  induction st with
  | nil => intro sid v h; simp [updateAssoc, findSet, Ne.symm h]
  | cons e rest ih =>
    intro sid v h
    by_cases he : e.1 = sid
    · simp [updateAssoc, findSet, he, Ne.symm h, h]
    · by_cases he' : e.1 = sid'
      · simp [updateAssoc, findSet, he, he', h]
      · simp [updateAssoc, findSet, he, he', ih sid v h]

theorem updateAssoc_findSet_eq :
    ∀ (st : List (Nat × List Nat)) (sid : Nat) (v : List Nat),
    findSet st sid = some v → updateAssoc st sid v = st := by
  intro st
  induction st with
  | nil => intro sid v h; simp [findSet] at h
  | cons e rest ih =>
    intro sid v h
    by_cases he : e.1 = sid
    · rw [findSet] at h
      rw [if_pos he] at h
      cases h
      cases e
      simp only at he
      simp [updateAssoc, he]
    · rw [findSet] at h
      rw [if_neg he] at h
      simp [updateAssoc, he, ih sid v h]

theorem findSet_mem :
    ∀ (st : List (Nat × List Nat)) (sid : Nat) (v : List Nat),
    findSet st sid = some v → (sid, v) ∈ st := by
  intro st
  induction st with
  | nil => intro sid v h; simp [findSet] at h
  | cons e rest ih =>
    intro sid v h
    rw [findSet] at h
    by_cases he : e.1 = sid
    · rw [if_pos he] at h
      cases h
      cases e
      simp only at he
      subst he
      exact List.mem_cons_self _ _
    · rw [if_neg he] at h
      exact List.mem_cons_of_mem e (ih sid v h)

theorem mem_updateAssoc :
    ∀ (st : List (Nat × List Nat)) (sid : Nat) (v : List Nat) (e : Nat × List Nat),
    e ∈ updateAssoc st sid v → e = (sid, v) ∨ e ∈ st := by
  intro st
  induction st with
  | nil => intro sid v e h; simp [updateAssoc] at h; exact Or.inl h
  | cons x rest ih =>
    intro sid v e h
    by_cases hx : x.1 = sid
    · rw [updateAssoc, if_pos hx] at h
      rcases List.mem_cons.mp h with h1 | h1
      · exact Or.inl h1
      · exact Or.inr (List.mem_cons_of_mem x h1)
    · rw [updateAssoc, if_neg hx] at h
      rcases List.mem_cons.mp h with h1 | h1
      · exact Or.inr (h1 ▸ List.mem_cons_self x rest)
      · rcases ih sid v e h1 with h2 | h2
        · exact Or.inl h2
        · exact Or.inr (List.mem_cons_of_mem x h2)

theorem eraseKey_sublist :
    ∀ (reg : List (String × Nat)) (k : String),
    List.Sublist (eraseKey reg k) reg := by
  intro reg
  induction reg with
  | nil => intro k; simp [eraseKey]
  | cons e rest ih =>
    intro k
    by_cases he : e.1 = k
    · cases e
      simp only at he
      simp only [eraseKey, if_pos he]
      exact List.sublist_cons_self _ _
    · cases e
      simp only at he
      simp only [eraseKey, if_neg he]
      exact List.Sublist.cons₂ _ (ih k)

theorem eraseKey_keys :
    ∀ (reg : List (String × Nat)) (k : String),
    (reg.map Prod.fst).Nodup → ∀ e ∈ eraseKey reg k, e.1 ≠ k := by
  intro reg
  induction reg with
  | nil => intro k _ e he; simp [eraseKey] at he
  | cons x rest ih =>
    intro k hn e he
    simp only [List.map_cons, List.nodup_cons] at hn
    cases x with
    | mk a b =>
      simp only [eraseKey] at he
      by_cases hx : a = k
      · rw [if_pos hx] at he
        subst hx
        intro hek
        exact hn.1 (List.mem_map.mpr ⟨e, he, hek⟩)
      · rw [if_neg hx] at he
        rcases List.mem_cons.mp he with h1 | h1
        · rw [h1]; exact hx
        · exact ih k hn.2 e h1

theorem eraseKey_id :
    ∀ (reg : List (String × Nat)) (k : String),
    (∀ e ∈ reg, e.1 ≠ k) → eraseKey reg k = reg := by
  intro reg
  induction reg with
  | nil => intro k _; rfl
  | cons x rest ih =>
    intro k h
    have hx := h x (List.mem_cons_self x rest)
    cases x
    simp only at hx
    simp only [eraseKey, if_neg hx]
    rw [ih k (fun e he => h e (List.mem_cons_of_mem _ he))]

theorem findSid_mem :
    ∀ (reg : List (String × Nat)) (k : String) (sid : Nat),
    findSid reg k = some sid → (k, sid) ∈ reg := by
  intro reg
  induction reg with
  | nil => intro k sid h; simp [findSid] at h
  | cons e rest ih =>
    intro k sid h
    rw [findSid] at h
    by_cases he : e.1 = k
    · rw [if_pos he] at h
      cases h
      cases e
      simp only at he
      subst he
      exact List.mem_cons_self _ _
    · rw [if_neg he] at h
      exact List.mem_cons_of_mem e (ih k sid h)

theorem findSid_none :
    ∀ (reg : List (String × Nat)) (k : String),
    findSid reg k = none → ∀ e ∈ reg, e.1 ≠ k := by
  intro reg
  induction reg with
  | nil => intro k _ e he; simp at he
  | cons x rest ih =>
    intro k h e he
    rw [findSid] at h
    by_cases hx : x.1 = k
    · rw [if_pos hx] at h; cases h
    · rw [if_neg hx] at h
      rcases List.mem_cons.mp he with h1 | h1
      · rw [h1]; exact hx
      · exact ih k h e h1

theorem findSid_append_ne (k k1 : String) (n : Nat) (h : k ≠ k1) :
    ∀ (reg : List (String × Nat)),
    findSid (reg ++ [(k1, n)]) k = findSid reg k := by
  intro reg
  induction reg with
  | nil => simp [findSid, Ne.symm h]
  | cons e rest ih =>
    by_cases he : e.1 = k
    · simp [findSid, he]
    · simp only [List.cons_append, findSid, if_neg he]
      exact ih

theorem findSid_eraseKey_ne (k k1 : String) (h : k ≠ k1) :
    ∀ (reg : List (String × Nat)),
    findSid (eraseKey reg k1) k = findSid reg k := by
  intro reg
  induction reg with
  | nil => rfl
  | cons e rest ih =>
    by_cases he : e.1 = k1
    · cases e with
      | mk a b =>
        simp only at he
        subst he
        simp [eraseKey, findSid, Ne.symm h]
    · cases e with
      | mk a b =>
        simp only at he
        by_cases hek : a = k
        · simp [eraseKey, he, findSid, hek, h]
        · simp only [eraseKey, if_neg he, findSid, if_neg hek]
          exact ih

theorem snd_nodup_inj :
    ∀ (reg : List (String × Nat)),
    (reg.map Prod.snd).Nodup →
    ∀ (a c : String) (s : Nat), (a, s) ∈ reg → (c, s) ∈ reg → a = c := by
  intro reg
  induction reg with
  | nil => intro _ a c s ha; simp at ha
  | cons x rest ih =>
    intro hn a c s ha hc
    simp only [List.map_cons, List.nodup_cons] at hn
    rcases List.mem_cons.mp ha with h1 | h1 <;> rcases List.mem_cons.mp hc with h2 | h2
    · rw [← h2] at h1; exact congrArg Prod.fst h1
    · exfalso
      apply hn.1
      have : x.2 = s := congrArg Prod.snd h1.symm
      rw [this]
      exact List.mem_map_of_mem Prod.snd h2
    · exfalso
      apply hn.1
      have : x.2 = s := congrArg Prod.snd h2.symm
      rw [this]
      exact List.mem_map_of_mem Prod.snd h1
    · exact ih hn.2 a c s h1 h2

theorem not_mem_erase_self {s : List Nat} (h : s.Nodup) (a : Nat) :
    a ∉ s.erase a := by
  rw [h.erase_eq_filter]
  intro hmem
  simp [List.mem_filter] at hmem

/-! ### Concrete buses and listener environments used by witnesses -/

/-- A listener environment where every listener has an empty body and throws
the string `"boom"`. -/
def envBoom : Nat → LBeh :=
  fun _ => ⟨fun _ => [], fun _ => Except.error (Val.str "boom")⟩

/-- A listener environment where listener 1 returns normally and every other
listener throws the string `"boom"`; no listener touches the registry. -/
def envSplit : Nat → LBeh :=
  fun l =>
    if l = 1 then ⟨fun _ => [], fun _ => Except.ok (Val.num 7)⟩
    else ⟨fun _ => [], fun _ => Except.error (Val.str "boom")⟩

/-- A listener environment where every listener has an empty body and
returns normally. -/
def envOk : Nat → LBeh :=
  fun _ => ⟨fun _ => [], fun _ => Except.ok Val.undef⟩

/-- A bus with the single listener 1 registered for `"x"`. -/
def busOne : Bus := (Bus.empty.on "x" 1).1

/-- A bus with listeners 1 and 2 registered for `"x"`, in that order. -/
def busTwo : Bus := ((Bus.empty.on "x" 1).1.on "x" 2).1

/-- C3: `emitAsync(e, p)` resolves with exactly one `EmitOutcome` per
listener in the snapshot taken at emission start — the `i`-th outcome is
`{ok: true, value}` with that listener's resolved value, or `{ok: false,
error}` with that listener's original thrown/rejected error (`settle`) — and
every snapshot listener is invoked, so one listener's failure neither
prevents a sibling's invocation nor disturbs a sibling's outcome. The
operation itself is a total function into outcome lists: it never rejects. -/
theorem emitAsync_outcome_per_listener (b : Bus) (k : String) (env : Nat → LBeh)
    (pay : List Val) :
    ((b.emitAsync k env pay).2.2).length = (b.snapshot k).length
  ∧ (∀ l, l ∈ b.snapshot k →
      (l, pay.getD 0 Val.undef) ∈ (b.emitAsync k env pay).2.1)
  ∧ (∀ i, ((b.emitAsync k env pay).2.2).get? i =
      ((b.snapshot k).get? i).map (settle env (pay.getD 0 Val.undef))) := by
  cases h : findSid b.registry k with
  | none =>
    refine ⟨?_, ?_, ?_⟩ <;> simp [Bus.emitAsync, Bus.snapshot, h]
  | some sid =>
    refine ⟨?_, ?_, ?_⟩
    · simp [Bus.emitAsync, Bus.snapshot, h, emitAsyncGo_outs]
    · intro l hl
      simp only [Bus.snapshot, h] at hl
      simp only [Bus.emitAsync, h, emitAsyncGo_trace]
      exact List.mem_map_of_mem (fun l => (l, pay.getD 0 Val.undef)) hl
    · intro i
      simp only [Bus.emitAsync, Bus.snapshot, h, emitAsyncGo_outs]
      simp [List.get?_map]

/-- Witness for C3 at a concrete input: one listener for `"x"` that throws;
it is invoked and its outcome is its settled (failed) outcome. -/
theorem emitAsync_outcome_per_listener_witness :
    (1, Val.undef) ∈ (busOne.emitAsync "x" envBoom []).2.1 ∧
    ((busOne.emitAsync "x" envBoom []).2.2).get? 0 =
      ((busOne.snapshot "x").get? 0).map (settle envBoom Val.undef) :=
  ⟨(emitAsync_outcome_per_listener busOne "x" envBoom []).2.1 1 (by decide),
   (emitAsync_outcome_per_listener busOne "x" envBoom []).2.2 0⟩

/-- C4: during `emit`, if the listeners of the snapshot are `pre ++ Li ++ suf`
in registration order, every listener of `pre` returns normally and `Li`
throws `e`, then `e` propagates synchronously to the caller of `emit` and the
invocation record is exactly `pre ++ [Li]`, each with payload `p`, in order:
the listeners of `suf` are not invoked in that same emit call. -/
theorem emit_fail_fast (b : Bus) (k : String) (env : Nat → LBeh) (pay : List Val)
    (pre suf : List Nat) (le : Nat) (e : Val)
    (hsnap : b.snapshot k = pre ++ le :: suf)
    (hok : ∀ l ∈ pre, ∃ v, (env l).res (pay.getD 0 Val.undef) = Except.ok v)
    (herr : (env le).res (pay.getD 0 Val.undef) = Except.error e) :
    (b.emit k env pay).2.2 = some e ∧
    (b.emit k env pay).2.1 =
      (pre ++ [le]).map (fun l => (l, pay.getD 0 Val.undef)) := by
  cases h : findSid b.registry k with
  | none =>
    rw [Bus.snapshot, h] at hsnap
    cases pre <;> simp at hsnap
  | some sid =>
    simp only [Bus.snapshot, h] at hsnap
    have hg := emitGo_err env (pay.getD 0 Val.undef) le e herr pre suf b hok
    rw [← hsnap] at hg
    constructor
    · simp only [Bus.emit, h]
      exact hg.2
    · simp only [Bus.emit, h]
      exact hg.1

/-- Witness for C4 at a concrete input: listeners 1 then 2 for `"x"`,
listener 1 returns normally, listener 2 throws `"boom"`: the error escapes
and exactly listeners 1 and 2 are invoked, in order, with `undefined`. -/
theorem emit_fail_fast_witness :
    (busTwo.emit "x" envSplit []).2.2 = some (Val.str "boom") ∧
    (busTwo.emit "x" envSplit []).2.1 =
      [(1, Val.undef), (2, Val.undef)] :=
  emit_fail_fast busTwo "x" envSplit [] [1] [] 2 (Val.str "boom")
    (by decide)
    (by intro l hl; simp at hl; subst hl; exact ⟨Val.num 7, rfl⟩)
    rfl

/-- C5: the outcome list `emitAsync` resolves with is the registration-order
snapshot taken at emission start, mapped through each listener's own settled
outcome — so the `i`-th result belongs to the `i`-th snapshotted listener —
and when no listener set exists for the event it resolves to `[]`. -/
theorem emitAsync_ordered (b : Bus) (k : String) (env : Nat → LBeh)
    (pay : List Val) :
    (b.emitAsync k env pay).2.2 =
      (b.snapshot k).map (settle env (pay.getD 0 Val.undef))
  ∧ (findSid b.registry k = none → (b.emitAsync k env pay).2.2 = []) := by
  cases h : findSid b.registry k <;>
    simp [Bus.emitAsync, Bus.snapshot, h, emitAsyncGo_outs]

/-- Witness for C5 at a concrete input: no listener set exists for `"y"`, so
`emitAsync` resolves to the empty collection. -/
theorem emitAsync_ordered_witness :
    (Bus.empty.emitAsync "y" envBoom []).2.2 = [] :=
  (emitAsync_ordered Bus.empty "y" envBoom []).2 rfl

/-- C10: when `emit` or `emitAsync` is called with the payload rest-argument
omitted (the empty argument list), `payload[0]` is `undefined`, and every
invoked listener receives exactly the value `undefined` as its payload. -/
theorem omitted_payload_undefined (b : Bus) (k : String) (env : Nat → LBeh) :
    (∀ l v, (l, v) ∈ (b.emit k env []).2.1 → v = Val.undef)
  ∧ (∀ l v, (l, v) ∈ (b.emitAsync k env []).2.1 → v = Val.undef) := by
  constructor
  · intro l v hv
    cases h : findSid b.registry k with
    | none => rw [Bus.emit, h] at hv; simp at hv
    | some sid =>
      rw [Bus.emit, h] at hv
      exact emitGo_payload env (List.getD [] 0 Val.undef) (getSet b sid) b (l, v) hv
  · intro l v hv
    cases h : findSid b.registry k with
    | none => simp [Bus.emitAsync, h] at hv
    | some sid =>
      simp only [Bus.emitAsync, h, emitAsyncGo_trace] at hv
      rcases List.mem_map.mp hv with ⟨a, ha, hav⟩
      exact (congrArg Prod.snd hav).symm

/-- Witness for C10 at a concrete input: emitting `"x"` with no payload
argument delivers `undefined` to the registered listener. -/
theorem omitted_payload_undefined_witness :
    Val.undef = Val.undef ∧ Val.undef = Val.undef :=
  ⟨(omitted_payload_undefined busOne "x" envBoom).1 1 Val.undef (by decide),
   (omitted_payload_undefined busOne "x" envBoom).2 1 Val.undef (by decide)⟩

/-- C6 (amended): every emission (`emit` or `emitAsync`) operates on the
snapshot taken at its start: it invokes only listeners that are in that
snapshot — so a listener removed (by `off`, `once` self-removal or `clear`)
before the emission started, or added during the in-progress emission, is not
invoked by it — and it invokes all of the snapshot, in order, when no
listener throws (`emitAsync` always invokes all of it). The original claim's
"invokes exactly the listeners in the snapshot" fails for `emit` when a
listener throws: snapshot members after the thrower are then not invoked
(see the counterexample). -/
theorem emission_snapshot_scoped (b : Bus) (k : String) (env : Nat → LBeh)
    (pay : List Val) :
    (∀ l v, (l, v) ∈ (b.emit k env pay).2.1 → l ∈ b.snapshot k)
  ∧ ((b.emit k env pay).2.2 = none →
      (b.emit k env pay).2.1 =
        (b.snapshot k).map (fun l => (l, pay.getD 0 Val.undef)))
  ∧ ((b.emitAsync k env pay).2.1 =
      (b.snapshot k).map (fun l => (l, pay.getD 0 Val.undef))) := by
  refine ⟨?_, ?_, ?_⟩
  · intro l v hv
    cases h : findSid b.registry k with
    | none => simp [Bus.emit, h] at hv
    | some sid =>
      simp only [Bus.emit, h] at hv
      simp only [Bus.snapshot, h]
      have hsub := emitGo_fst_sublist env (pay.getD 0 Val.undef) (getSet b sid) b
      exact hsub.subset (List.mem_map.mpr ⟨(l, v), hv, rfl⟩)
  · intro hnone
    cases h : findSid b.registry k with
    | none => simp [Bus.emit, Bus.snapshot, h]
    | some sid =>
      simp only [Bus.emit, h] at hnone ⊢
      simp only [Bus.snapshot, h]
      exact emitGo_none_trace env (pay.getD 0 Val.undef) (getSet b sid) b hnone
  · cases h : findSid b.registry k with
    | none => simp [Bus.emitAsync, Bus.snapshot, h]
    | some sid =>
      simp only [Bus.emitAsync, Bus.snapshot, h]
      exact emitAsyncGo_trace env (pay.getD 0 Val.undef) (getSet b sid) b

/-- Counterexample to C6 as stated: with listeners 1 and 2 registered for
`"x"` in that order and listener 1 throwing, `emit` invokes listener 1 only,
although listener 2 is in the snapshot taken at emission start — an emission
does not always invoke *exactly* the snapshot. -/
theorem emission_snapshot_scoped_cex :
    2 ∈ busTwo.snapshot "x" ∧
    (busTwo.emit "x" envBoom []).2.1 = [(1, Val.undef)] := by
  constructor
  · decide
  · rfl

/-- Witness for C6 (amended) at a concrete input: with no listener throwing,
`emit` on `busTwo` invokes exactly the snapshot `[1, 2]`. -/
theorem emission_snapshot_scoped_witness :
    1 ∈ busTwo.snapshot "x" ∧
    (busTwo.emit "x" envOk []).2.1 =
      (busTwo.snapshot "x").map (fun l => (l, Val.undef)) :=
  ⟨(emission_snapshot_scoped busTwo "x" envOk []).1 1 Val.undef (by decide),
   (emission_snapshot_scoped busTwo "x" envOk []).2.1 (by rfl)⟩

/-- C2 (amended): the unsubscribe function returned by `on(e, L)` behaves
exactly like `off(e, L)` in every state where the registry still maps `e` to
the set object captured at registration time (in particular immediately
repeated calls stay no-ops: applying it twice in succession equals applying
it once, for well-formed sets). It is *not* equivalent to `off` in every
reachable state: after `clear`/emptying removed the entry and a new
registration re-created `e` with a fresh set, a call mutates the stale
captured set and can delete the new entry (see the counterexample). -/
theorem unsubscribe_matches_off (b : Bus) (t : Tok) :
    (findSid b.registry t.key = some t.sid → b.unsub t = (b.off t.key t.lid).1)
  ∧ ((b.registry.map Prod.fst).Nodup → (getSet b t.sid).Nodup →
      (b.unsub t).unsub t = b.unsub t) := by
  constructor
  · intro h
    simp [Bus.unsub, Bus.off, h]
  · intro hk hs
    by_cases hcase : (getSet b t.sid).erase t.lid = []
    · have h1 : b.unsub t =
          ⟨eraseKey b.registry t.key, updateAssoc b.store t.sid [], b.nextSet⟩ := by
        simp [Bus.unsub, hcase, setStore]
      have hu : updateAssoc (updateAssoc b.store t.sid []) t.sid [] =
          updateAssoc b.store t.sid [] :=
        updateAssoc_findSet_eq _ _ _ (findSet_updateAssoc_self b.store t.sid [])
      have he2 : eraseKey (eraseKey b.registry t.key) t.key =
          eraseKey b.registry t.key :=
        eraseKey_id _ _ (eraseKey_keys b.registry t.key hk)
      rw [h1]
      simp [Bus.unsub, getSet, setStore, findSet_updateAssoc_self, hu, he2]
    · have h1 : b.unsub t =
          ⟨b.registry,
           updateAssoc b.store t.sid ((getSet b t.sid).erase t.lid),
           b.nextSet⟩ := by
        simp [Bus.unsub, hcase, setStore]
      have hu : updateAssoc
            (updateAssoc b.store t.sid ((getSet b t.sid).erase t.lid)) t.sid
            ((getSet b t.sid).erase t.lid) =
          updateAssoc b.store t.sid ((getSet b t.sid).erase t.lid) :=
        updateAssoc_findSet_eq _ _ _ (findSet_updateAssoc_self b.store t.sid _)
      have hnm : t.lid ∉ (getSet b t.sid).erase t.lid := not_mem_erase_self hs t.lid
      have hX : ((getSet b t.sid).erase t.lid).erase t.lid =
          (getSet b t.sid).erase t.lid := List.erase_of_not_mem hnm
      rw [h1]
      simp only [getSet] at hcase hu hX
      simp [Bus.unsub, getSet, setStore, findSet_updateAssoc_self, hX, hcase, hu]

/-- The unsubscribe token produced by registering listener 1 for `"x"` on a
fresh bus. -/
def c2tok : Tok := (Bus.empty.on "x" 1).2

/-- The bus after `on("x", 1)`, then `clear()`, then `on("x", 2)`: the
registry maps `"x"` to a fresh set holding listener 2 only, while the first
registration's unsubscribe closure still holds the old set. -/
def c2bus : Bus := ((((Bus.empty.on "x" 1).1).clear none).on "x" 2).1

/-- Counterexample to C2 as stated: in the `c2bus` state, calling the
unsubscribe function from the first registration empties the stale captured
set and thereby deletes the registry entry of the *new* set — listener 2 is
gone — whereas `off("x", 1)` finds listener 1 absent from the current set,
returns `false`, and leaves listener 2 registered. The two disagree. -/
theorem unsubscribe_matches_off_cex :
    (c2bus.unsub c2tok).listenerCount "x" = 0 ∧
    ((c2bus.off "x" c2tok.lid).1).listenerCount "x" = 1 ∧
    (c2bus.off "x" c2tok.lid).2 = false ∧
    c2bus.unsub c2tok ≠ (c2bus.off "x" c2tok.lid).1 := by
  refine ⟨rfl, rfl, rfl, ?_⟩
  decide

/-- Witness for C2 (amended) at a concrete input: right after `on("x", 1)`
the captured set is still current, so the unsubscribe call coincides with
`off("x", 1)`, and applying it twice equals applying it once. -/
theorem unsubscribe_matches_off_witness :
    (Bus.empty.on "x" 1).1.unsub c2tok =
      (((Bus.empty.on "x" 1).1).off "x" 1).1 ∧
    (((Bus.empty.on "x" 1).1.unsub c2tok).unsub c2tok =
      (Bus.empty.on "x" 1).1.unsub c2tok) :=
  ⟨(unsubscribe_matches_off (Bus.empty.on "x" 1).1 c2tok).1 (by decide),
   (unsubscribe_matches_off (Bus.empty.on "x" 1).1 c2tok).2 (by decide) (by decide)⟩

/-- Registry well-formedness, maintained by every reachable state (proved in
the reachability section): keys are distinct (a JS `Map` cannot hold a key
twice), the set identifiers installed in the registry are distinct (each `on`
miss allocates a fresh `Set` object), and all installed identifiers were
allocated below the freshness counter. -/
def RegWF (b : Bus) : Prop :=
  (b.registry.map Prod.fst).Nodup ∧ (b.registry.map Prod.snd).Nodup ∧
  ∀ e ∈ b.registry, e.2 < b.nextSet

/-- C8: distinct event identifiers are independent channels: `on`, `off` and
`clear` on `k1` leave `k2`'s listener set (its snapshot) unchanged, and an
emission of `k1` (`emit` or `emitAsync`) invokes only listeners from `k1`'s
own snapshot — a listener not registered under `k1` (e.g. one registered
only under `k2`) is never invoked — and, when the listeners themselves do
not mutate the registry, emitting `k1` leaves the whole bus unchanged. -/
theorem distinct_events_independent (b : Bus) (k1 k2 : String) (lid : Nat)
    (env : Nat → LBeh) (pay : List Val) (hW : RegWF b) (hne : k1 ≠ k2) :
    ((b.on k1 lid).1).snapshot k2 = b.snapshot k2
  ∧ ((b.off k1 lid).1).snapshot k2 = b.snapshot k2
  ∧ (b.clear (some k1)).snapshot k2 = b.snapshot k2
  ∧ (∀ l v, (l, v) ∈ (b.emit k1 env pay).2.1 → l ∈ b.snapshot k1)
  ∧ (∀ l v, (l, v) ∈ (b.emitAsync k1 env pay).2.1 → l ∈ b.snapshot k1)
  ∧ ((∀ l p, (env l).acts p = []) →
      (b.emit k1 env pay).1 = b ∧ (b.emitAsync k1 env pay).1 = b) := by
  have hsid : ∀ sid1 sid2, findSid b.registry k1 = some sid1 →
      findSid b.registry k2 = some sid2 → sid2 ≠ sid1 := by
    intro sid1 sid2 h1 h2 hcontra
    subst hcontra
    exact hne (snd_nodup_inj b.registry hW.2.1 k1 k2 sid2 (findSid_mem _ _ _ h1)
      (findSid_mem _ _ _ h2))
  refine ⟨?_, ?_, ?_, ?_, ?_, ?_⟩
  · cases h1 : findSid b.registry k1 with
    | some sid1 =>
      cases h2 : findSid b.registry k2 with
      | none => simp [Bus.on, Bus.snapshot, h1, h2, setStore]
      | some sid2 =>
        simp only [Bus.on, Bus.snapshot, setStore, h1, h2]
        simp [getSet, findSet_updateAssoc_ne sid2 b.store sid1 _ (hsid sid1 sid2 h1 h2)]
    | none =>
      have hreg : findSid (b.registry ++ [(k1, b.nextSet)]) k2 = findSid b.registry k2 :=
        findSid_append_ne k2 k1 b.nextSet (Ne.symm hne) b.registry
      cases h2 : findSid b.registry k2 with
      | none => simp [Bus.on, Bus.snapshot, h1, h2, hreg]
      | some sid2 =>
        have hlt : sid2 < b.nextSet :=
          hW.2.2 (k2, sid2) (findSid_mem _ _ _ h2)
        simp only [Bus.on, Bus.snapshot, h1, hreg, h2]
        simp [getSet, findSet_updateAssoc_ne sid2 b.store b.nextSet _ (Nat.ne_of_lt hlt)]
  · cases h1 : findSid b.registry k1 with
    | none => simp [Bus.off, Bus.snapshot, h1]
    | some sid1 =>
      have hget : ∀ (st : Bus), st.registry = b.registry ∨
          st.registry = eraseKey b.registry k1 →
          st.store = updateAssoc b.store sid1 ((getSet b sid1).erase lid) →
          st.snapshot k2 = b.snapshot k2 := by
        intro st hr hs
        have hfind : findSid st.registry k2 = findSid b.registry k2 := by
          rcases hr with hr | hr
          · rw [hr]
          · rw [hr]; exact findSid_eraseKey_ne k2 k1 (Ne.symm hne) b.registry
        cases h2 : findSid b.registry k2 with
        | none => simp [Bus.snapshot, hfind, h2]
        | some sid2 =>
          simp only [Bus.snapshot, hfind, h2]
          simp [getSet, hs,
            findSet_updateAssoc_ne sid2 b.store sid1 _ (hsid sid1 sid2 h1 h2)]
      by_cases hc : (getSet b sid1).erase lid = []
      · apply hget
        · right; simp [Bus.off, h1, hc, setStore]
        · simp [Bus.off, h1, hc, setStore]
      · apply hget
        · left; simp [Bus.off, h1, hc, setStore]
        · simp [Bus.off, h1, hc, setStore]
  · have hfind : findSid (eraseKey b.registry k1) k2 = findSid b.registry k2 :=
      findSid_eraseKey_ne k2 k1 (Ne.symm hne) b.registry
    cases h2 : findSid b.registry k2 with
    | none => simp [Bus.clear, Bus.snapshot, hfind, h2]
    | some sid2 => simp [Bus.clear, Bus.snapshot, hfind, h2, getSet]
  · intro l v hv
    cases h1 : findSid b.registry k1 with
    | none => simp [Bus.emit, h1] at hv
    | some sid =>
      simp only [Bus.emit, h1] at hv
      simp only [Bus.snapshot, h1]
      exact (emitGo_fst_sublist env (pay.getD 0 Val.undef) (getSet b sid) b).subset
        (List.mem_map.mpr ⟨(l, v), hv, rfl⟩)
  · intro l v hv
    cases h1 : findSid b.registry k1 with
    | none => simp [Bus.emitAsync, h1] at hv
    | some sid =>
      simp only [Bus.emitAsync, h1, emitAsyncGo_trace] at hv
      simp only [Bus.snapshot, h1]
      rcases List.mem_map.mp hv with ⟨a, ha, hav⟩
      have h1 : a = l := congrArg Prod.fst hav
      exact h1 ▸ ha
  · intro hpure
    constructor
    · cases h1 : findSid b.registry k1 with
      | none => simp [Bus.emit, h1]
      | some sid =>
        simp only [Bus.emit, h1]
        exact emitGo_pure env (pay.getD 0 Val.undef) hpure (getSet b sid) b
    · cases h1 : findSid b.registry k1 with
      | none => simp [Bus.emitAsync, h1]
      | some sid =>
        simp only [Bus.emitAsync, h1]
        exact emitAsyncGo_pure env (pay.getD 0 Val.undef) hpure (getSet b sid) b

/-- Witness for C8 at a concrete input: a bus with listener 1 on `"x"` and
listener 2 on `"y"`; operating on `"x"` leaves `"y"`'s set unchanged, and
emitting `"x"` stays inside `"x"`'s snapshot. -/
theorem distinct_events_independent_witness :
    (((((Bus.empty.on "x" 1).1.on "y" 2).1).on "x" 3).1).snapshot "y" =
      ((Bus.empty.on "x" 1).1.on "y" 2).1.snapshot "y" ∧
    ((((Bus.empty.on "x" 1).1.on "y" 2).1.emit "x" envOk []).1 =
      ((Bus.empty.on "x" 1).1.on "y" 2).1) :=
  ⟨(distinct_events_independent ((Bus.empty.on "x" 1).1.on "y" 2).1 "x" "y" 3
      envOk [] (by constructor; decide; constructor; decide; decide) (by decide)).1,
   ((distinct_events_independent ((Bus.empty.on "x" 1).1.on "y" 2).1 "x" "y" 3
      envOk [] (by constructor; decide; constructor; decide; decide) (by decide)).2.2.2.2.2
      (fun _ _ => rfl)).1⟩

/-! ### The reachable-state invariant -/

/-- No registry entry points at an empty set object. -/
def NoEmpty (b : Bus) : Prop := ∀ e ∈ b.registry, getSet b e.2 ≠ []

/-- Every set object in the heap is duplicate-free (JS `Set` semantics). -/
def SetsWF (b : Bus) : Prop := ∀ e ∈ b.store, List.Nodup e.2

/-- Handed-out unsubscribe closures are consistent with the state: their set
objects were allocated below the freshness counter, and a set object that is
currently installed in the registry is installed at the closure's own key. -/
def ToksWF (s : St) : Prop :=
  (∀ t ∈ s.toks, t.sid < s.bus.nextSet) ∧
  (∀ t ∈ s.toks, ∀ e ∈ s.bus.registry, e.2 = t.sid → e.1 = t.key)

/-- The full invariant of reachable states. -/
def Inv (s : St) : Prop := RegWF s.bus ∧ SetsWF s.bus ∧ NoEmpty s.bus ∧ ToksWF s

theorem getSet_nodup {b : Bus} (h : SetsWF b) (sid : Nat) :
    (getSet b sid).Nodup := by
  cases hg : findSet b.store sid with
  | none => rw [getSet, hg]; exact List.nodup_nil
  | some v =>
    rw [getSet, hg]
    exact h (sid, v) (findSet_mem b.store sid v hg)

theorem nodup_snoc {α : Type} [DecidableEq α] {l : List α} {a : α}
    (h : l.Nodup) (ha : a ∉ l) : (l ++ [a]).Nodup := by
  simp [List.nodup_append, h, ha]

theorem inv_on (b : Bus) (tk : List Tok) (k : String) (lid : Nat)
    (h : Inv ⟨b, tk⟩) : Inv ⟨(b.on k lid).1, tk ++ [(b.on k lid).2]⟩ := by
  obtain ⟨⟨hk, hsd, hlt⟩, hsw, hne, htl, htk⟩ := h
  cases hf : findSid b.registry k with
  | some sid =>
    have hmem : (k, sid) ∈ b.registry := findSid_mem _ _ _ hf
    have hs : (getSet b sid).Nodup := getSet_nodup hsw sid
    have hs' : (if lid ∈ getSet b sid then getSet b sid
        else getSet b sid ++ [lid]).Nodup := by
      by_cases hin : lid ∈ getSet b sid
      · rw [if_pos hin]; exact hs
      · rw [if_neg hin]; exact nodup_snoc hs hin
    have hnonempty : (if lid ∈ getSet b sid then getSet b sid
        else getSet b sid ++ [lid]) ≠ [] := by
      by_cases hin : lid ∈ getSet b sid
      · rw [if_pos hin]; exact hne (k, sid) hmem
      · rw [if_neg hin]; simp
    refine ⟨⟨?_, ?_, ?_⟩, ?_, ?_, ?_, ?_⟩ <;>
      simp only [Bus.on, hf, setStore]
    · exact hk
    · exact hsd
    · exact hlt
    · intro e he
      rcases mem_updateAssoc b.store sid _ e he with h1 | h1
      · rw [h1]; exact hs'
      · exact hsw e h1
    · intro e he
      by_cases hesid : e.2 = sid
      · rw [getSet]
        simp only [hesid, findSet_updateAssoc_self]
        exact hnonempty
      · rw [getSet]
        simp only [findSet_updateAssoc_ne e.2 b.store sid _ hesid]
        exact hne e he
    · intro t ht
      rcases List.mem_append.mp ht with h1 | h1
      · exact htl t h1
      · simp at h1
        rw [h1]
        exact hlt (k, sid) hmem
    · intro t ht e he hesid
      rcases List.mem_append.mp ht with h1 | h1
      · exact htk t h1 e he hesid
      · simp at h1
        subst h1
        simp only at hesid ⊢
        have : (e.1, sid) ∈ b.registry := by
          have he2 : e = (e.1, e.2) := rfl
          rw [he2, hesid] at he
          exact he
        exact snd_nodup_inj b.registry hsd e.1 k sid this hmem
  | none =>
    have hknot : ∀ e ∈ b.registry, e.1 ≠ k := findSid_none _ _ hf
    refine ⟨⟨?_, ?_, ?_⟩, ?_, ?_, ?_, ?_⟩ <;>
      simp only [Bus.on, hf]
    · simp only [List.map_append]
      apply nodup_snoc hk
      intro hcontra
      rcases List.mem_map.mp hcontra with ⟨e, he, hek⟩
      exact hknot e he hek
    · simp only [List.map_append]
      apply nodup_snoc hsd
      intro hcontra
      rcases List.mem_map.mp hcontra with ⟨e, he, hen⟩
      have hen' : e.2 = b.nextSet := hen
      exact Nat.lt_irrefl b.nextSet (hen' ▸ hlt e he)
    · intro e he
      rcases List.mem_append.mp he with h1 | h1
      · exact Nat.lt_trans (hlt e h1) (Nat.lt_succ_self _)
      · simp at h1
        rw [h1]
        exact Nat.lt_succ_self _
    · intro e he
      rcases mem_updateAssoc b.store b.nextSet [lid] e he with h1 | h1
      · rw [h1]; exact List.nodup_singleton lid
      · exact hsw e h1
    · intro e he
      rcases List.mem_append.mp he with h1 | h1
      · have hesid : e.2 ≠ b.nextSet := Nat.ne_of_lt (hlt e h1)
        rw [getSet]
        simp only [findSet_updateAssoc_ne e.2 b.store b.nextSet [lid] hesid]
        exact hne e h1
      · simp at h1
        rw [h1]
        rw [getSet]
        simp only [findSet_updateAssoc_self]
        simp
    · intro t ht
      rcases List.mem_append.mp ht with h1 | h1
      · exact Nat.lt_trans (htl t h1) (Nat.lt_succ_self _)
      · simp at h1
        rw [h1]
        exact Nat.lt_succ_self _
    · intro t ht e he hesid
      rcases List.mem_append.mp ht with h1 | h1
      · rcases List.mem_append.mp he with h2 | h2
        · exact htk t h1 e h2 hesid
        · simp at h2
          exfalso
          rw [h2] at hesid
          simp only at hesid
          exact Nat.lt_irrefl t.sid (hesid ▸ htl t h1)
      · simp at h1
        subst h1
        simp only at hesid ⊢
        rcases List.mem_append.mp he with h2 | h2
        · exfalso
          exact Nat.lt_irrefl b.nextSet (hesid ▸ hlt e h2)
        · simp at h2
          rw [h2]

theorem inv_off (b : Bus) (tk : List Tok) (k : String) (lid : Nat)
    (h : Inv ⟨b, tk⟩) : Inv ⟨(b.off k lid).1, tk⟩ := by
  obtain ⟨⟨hk, hsd, hlt⟩, hsw, hne, htl, htk⟩ := h
  cases hf : findSid b.registry k with
  | none =>
    simp only [Bus.off, hf]
    exact ⟨⟨hk, hsd, hlt⟩, hsw, hne, htl, htk⟩
  | some sid =>
    have hmem : (k, sid) ∈ b.registry := findSid_mem _ _ _ hf
    have hnd : ((getSet b sid).erase lid).Nodup := (getSet_nodup hsw sid).erase lid
    by_cases hc : (getSet b sid).erase lid = []
    · have hb : (b.off k lid).1 =
          ⟨eraseKey b.registry k,
           updateAssoc b.store sid ((getSet b sid).erase lid), b.nextSet⟩ := by
        simp [Bus.off, hf, hc, setStore]
      rw [hb]
      refine ⟨⟨?_, ?_, ?_⟩, ?_, ?_, ?_, ?_⟩
      · exact List.Nodup.sublist (List.Sublist.map Prod.fst (eraseKey_sublist b.registry k)) hk
      · exact List.Nodup.sublist (List.Sublist.map Prod.snd (eraseKey_sublist b.registry k)) hsd
      · intro e he
        exact hlt e ((eraseKey_sublist b.registry k).subset he)
      · intro e he
        rcases mem_updateAssoc b.store sid _ e he with h1 | h1
        · rw [h1]; exact hnd
        · exact hsw e h1
      · intro e he
        have hereg : e ∈ b.registry := (eraseKey_sublist b.registry k).subset he
        have heneq : e.1 ≠ k := eraseKey_keys b.registry k hk e he
        have hesid : e.2 ≠ sid := by
          intro hcontra
          apply heneq
          have : (e.1, sid) ∈ b.registry := by
            have he2 : e = (e.1, e.2) := rfl
            rw [he2, hcontra] at hereg
            exact hereg
          exact snd_nodup_inj b.registry hsd e.1 k sid this hmem
        rw [getSet]
        simp only [findSet_updateAssoc_ne e.2 b.store sid _ hesid]
        exact hne e hereg
      · exact htl
      · intro t ht e he hesid
        exact htk t ht e ((eraseKey_sublist b.registry k).subset he) hesid
    · have hb : (b.off k lid).1 =
          ⟨b.registry,
           updateAssoc b.store sid ((getSet b sid).erase lid), b.nextSet⟩ := by
        simp [Bus.off, hf, hc, setStore]
      rw [hb]
      refine ⟨⟨hk, hsd, hlt⟩, ?_, ?_, htl, ?_⟩
      · intro e he
        rcases mem_updateAssoc b.store sid _ e he with h1 | h1
        · rw [h1]; exact hnd
        · exact hsw e h1
      · intro e he
        by_cases hesid : e.2 = sid
        · rw [getSet]
          simp only [hesid, findSet_updateAssoc_self]
          exact hc
        · rw [getSet]
          simp only [findSet_updateAssoc_ne e.2 b.store sid _ hesid]
          exact hne e he
      · intro t ht e he hesid
        exact htk t ht e he hesid

theorem inv_clear (b : Bus) (tk : List Tok) (ko : Option String)
    (h : Inv ⟨b, tk⟩) : Inv ⟨b.clear ko, tk⟩ := by
  obtain ⟨⟨hk, hsd, hlt⟩, hsw, hne, htl, htk⟩ := h
  cases ko with
  | none =>
    refine ⟨⟨?_, ?_, ?_⟩, ?_, ?_, ?_, ?_⟩ <;> simp only [Bus.clear]
    · simp
    · simp
    · intro e he; simp at he
    · exact hsw
    · intro e he; simp at he
    · exact htl
    · intro t ht e he; simp at he
  | some k =>
    refine ⟨⟨?_, ?_, ?_⟩, ?_, ?_, ?_, ?_⟩ <;> simp only [Bus.clear]
    · exact List.Nodup.sublist (List.Sublist.map Prod.fst (eraseKey_sublist b.registry k)) hk
    · exact List.Nodup.sublist (List.Sublist.map Prod.snd (eraseKey_sublist b.registry k)) hsd
    · intro e he
      exact hlt e ((eraseKey_sublist b.registry k).subset he)
    · exact hsw
    · intro e he
      exact hne e ((eraseKey_sublist b.registry k).subset he)
    · exact htl
    · intro t ht e he hesid
      exact htk t ht e ((eraseKey_sublist b.registry k).subset he) hesid

theorem inv_unsub (b : Bus) (tk : List Tok) (t : Tok) (htmem : t ∈ tk)
    (h : Inv ⟨b, tk⟩) : Inv ⟨b.unsub t, tk⟩ := by
  obtain ⟨⟨hk, hsd, hlt⟩, hsw, hne, htl, htk⟩ := h
  have hnd : ((getSet b t.sid).erase t.lid).Nodup := (getSet_nodup hsw t.sid).erase t.lid
  by_cases hc : (getSet b t.sid).erase t.lid = []
  · have hb : b.unsub t =
        ⟨eraseKey b.registry t.key,
         updateAssoc b.store t.sid ((getSet b t.sid).erase t.lid), b.nextSet⟩ := by
      simp [Bus.unsub, hc, setStore]
    rw [hb]
    refine ⟨⟨?_, ?_, ?_⟩, ?_, ?_, ?_, ?_⟩
    · exact List.Nodup.sublist (List.Sublist.map Prod.fst (eraseKey_sublist b.registry t.key)) hk
    · exact List.Nodup.sublist (List.Sublist.map Prod.snd (eraseKey_sublist b.registry t.key)) hsd
    · intro e he
      exact hlt e ((eraseKey_sublist b.registry t.key).subset he)
    · intro e he
      rcases mem_updateAssoc b.store t.sid _ e he with h1 | h1
      · rw [h1]; exact hnd
      · exact hsw e h1
    · intro e he
      have hereg : e ∈ b.registry := (eraseKey_sublist b.registry t.key).subset he
      have heneq : e.1 ≠ t.key := eraseKey_keys b.registry t.key hk e he
      have hesid : e.2 ≠ t.sid := by
        intro hcontra
        exact heneq (htk t htmem e hereg hcontra)
      rw [getSet]
      simp only [findSet_updateAssoc_ne e.2 b.store t.sid _ hesid]
      exact hne e hereg
    · exact htl
    · intro t' ht' e he hesid
      exact htk t' ht' e ((eraseKey_sublist b.registry t.key).subset he) hesid
  · have hb : b.unsub t =
        ⟨b.registry,
         updateAssoc b.store t.sid ((getSet b t.sid).erase t.lid), b.nextSet⟩ := by
      simp [Bus.unsub, hc, setStore]
    rw [hb]
    refine ⟨⟨hk, hsd, hlt⟩, ?_, ?_, htl, ?_⟩
    · intro e he
      rcases mem_updateAssoc b.store t.sid _ e he with h1 | h1
      · rw [h1]; exact hnd
      · exact hsw e h1
    · intro e he
      by_cases hesid : e.2 = t.sid
      · rw [getSet]
        simp only [hesid, findSet_updateAssoc_self]
        exact hc
      · rw [getSet]
        simp only [findSet_updateAssoc_ne e.2 b.store t.sid _ hesid]
        exact hne e he
    · intro t' ht' e he hesid
      exact htk t' ht' e he hesid

theorem invStep (s : St) (op : Op) (h : Inv s) : Inv (runOp s op) := by
  cases op with
  | oon k lid => exact inv_on s.bus s.toks k lid h
  | oonce k w => exact inv_on s.bus s.toks k w h
  | ooff k lid => exact inv_off s.bus s.toks k lid h
  | oclear ko => exact inv_clear s.bus s.toks ko h
  | ounsub i =>
    cases hg : s.toks.get? i with
    | none => simp only [runOp, hg]; exact h
    | some t =>
      simp only [runOp, hg]
      exact inv_unsub s.bus s.toks t (List.get?_mem hg) h

theorem invExec : ∀ (prog : List Op) (s : St), Inv s → Inv (prog.foldl runOp s) := by
  intro prog
  induction prog with
  | nil => intro s h; exact h
  | cons op rest ih =>
    intro s h
    exact ih (runOp s op) (invStep s op h)

theorem invInit : Inv ⟨Bus.empty, []⟩ := by
  refine ⟨⟨?_, ?_, ?_⟩, ?_, ?_, ?_, ?_⟩ <;> simp [Bus.empty, SetsWF, NoEmpty]

theorem invReach (prog : List Op) : Inv (execP prog) :=
  invExec prog ⟨Bus.empty, []⟩ invInit

/-- Re-adding an already-registered listener reference is a complete no-op:
`Set.add` of a present element changes nothing, so the bus is unchanged. -/
theorem on_mem_noop (b : Bus) (k : String) (lid : Nat)
    (h : lid ∈ b.snapshot k) : (b.on k lid).1 = b := by
  cases hf : findSid b.registry k with
  | none =>
    simp only [Bus.snapshot, hf] at h
    simp at h
  | some sid =>
    simp only [Bus.snapshot, hf] at h
    cases hg : findSet b.store sid with
    | none =>
      exfalso
      rw [getSet, hg] at h
      simp at h
    | some v =>
      have hv : getSet b sid = v := by rw [getSet, hg]; rfl
      simp only [Bus.on, hf, setStore, if_pos h]
      rw [hv, updateAssoc_findSet_eq b.store sid v hg]

/-- C7: in every registry state reachable from a fresh bus by `on`, `once`,
`off`, `clear` and unsubscribe-closure calls (the only operations that
mutate the registry — emissions mutate it only through exactly these calls
made by their listeners), no event identifier is mapped to an empty listener
set; consequently an identifier whose last listener has been removed is
absent, `listenerCount` returns 0 exactly for absent identifiers, and
`hasListeners` is false exactly for absent identifiers. -/
theorem registry_no_empty_sets (prog : List Op) (k : String) :
    (∀ sid, findSid (execP prog).bus.registry k = some sid →
      getSet (execP prog).bus sid ≠ [])
  ∧ ((execP prog).bus.hasListeners k = false ↔
      findSid (execP prog).bus.registry k = none)
  ∧ ((execP prog).bus.listenerCount k = 0 ↔
      findSid (execP prog).bus.registry k = none) := by
  obtain ⟨hreg, hsw, hne, htw⟩ := invReach prog
  have hmain : ∀ sid, findSid (execP prog).bus.registry k = some sid →
      getSet (execP prog).bus sid ≠ [] := by
    intro sid hf
    exact hne (k, sid) (findSid_mem _ _ _ hf)
  have hcount : (execP prog).bus.listenerCount k = 0 ↔
      findSid (execP prog).bus.registry k = none := by
    constructor
    · intro h0
      cases hf : findSid (execP prog).bus.registry k with
      | none => rfl
      | some sid =>
        exfalso
        simp only [Bus.listenerCount, hf] at h0
        exact hmain sid hf (List.length_eq_zero.mp h0)
    · intro hf
      simp [Bus.listenerCount, hf]
  refine ⟨hmain, ?_, hcount⟩
  rw [← hcount]
  simp [Bus.hasListeners]

/-- Witness for C7 at concrete inputs: after `on("x", 1)` the installed set
is nonempty, and after `on("x", 1)` then `off("x", 1)` the identifier is
absent if and only if `hasListeners` is false (both hold). -/
theorem registry_no_empty_sets_witness :
    getSet (execP [Op.oon "x" 1]).bus 0 ≠ [] ∧
    ((execP [Op.oon "x" 1, Op.ooff "x" 1]).bus.hasListeners "x" = false ↔
      findSid (execP [Op.oon "x" 1, Op.ooff "x" 1]).bus.registry "x" = none) :=
  ⟨(registry_no_empty_sets [Op.oon "x" 1] "x").1 0 (by decide),
   (registry_no_empty_sets [Op.oon "x" 1, Op.ooff "x" 1] "x").2.1⟩

/-- C9: in every reachable state (in particular after any sequence of
`on`/`off` calls from a fresh bus), the listener set of any event is
duplicate-free and `listenerCount` equals its length (the number of distinct
registered listener references); re-registering an already-registered
reference leaves the bus entirely unchanged; and no single emission (`emit`
or `emitAsync`) invokes the same listener reference twice. -/
theorem listener_count_exact (prog : List Op) (k : String) (env : Nat → LBeh)
    (pay : List Val) :
    ((execP prog).bus.snapshot k).Nodup
  ∧ (execP prog).bus.listenerCount k = ((execP prog).bus.snapshot k).length
  ∧ (∀ lid, lid ∈ (execP prog).bus.snapshot k →
      ((execP prog).bus.on k lid).1 = (execP prog).bus)
  ∧ ((((execP prog).bus.emit k env pay).2.1).map Prod.fst).Nodup
  ∧ ((((execP prog).bus.emitAsync k env pay).2.1).map Prod.fst).Nodup := by
  obtain ⟨hreg, hsw, hne, htw⟩ := invReach prog
  have hsnap : ((execP prog).bus.snapshot k).Nodup := by
    cases hf : findSid (execP prog).bus.registry k with
    | none => simp [Bus.snapshot, hf]
    | some sid =>
      simp only [Bus.snapshot, hf]
      exact getSet_nodup hsw sid
  refine ⟨hsnap, ?_, ?_, ?_, ?_⟩
  · cases hf : findSid (execP prog).bus.registry k <;>
      simp [Bus.listenerCount, Bus.snapshot, hf]
  · intro lid hmem
    exact on_mem_noop (execP prog).bus k lid hmem
  · cases hf : findSid (execP prog).bus.registry k with
    | none => simp [Bus.emit, hf]
    | some sid =>
      simp only [Bus.emit, hf]
      simp only [Bus.snapshot, hf] at hsnap
      exact List.Nodup.sublist
        (emitGo_fst_sublist env (pay.getD 0 Val.undef) (getSet (execP prog).bus sid)
          (execP prog).bus) hsnap
  · cases hf : findSid (execP prog).bus.registry k with
    | none => simp [Bus.emitAsync, hf]
    | some sid =>
      simp only [Bus.emitAsync, hf, emitAsyncGo_fst]
      simp only [Bus.snapshot, hf] at hsnap
      exact hsnap

/-- Witness for C9 at a concrete input: registering listener 1 twice leaves
one distinct reference (`listenerCount` is the snapshot length) and the
second registration is a no-op. -/
theorem listener_count_exact_witness :
    (execP [Op.oon "x" 1, Op.oon "x" 1]).bus.listenerCount "x" =
      ((execP [Op.oon "x" 1, Op.oon "x" 1]).bus.snapshot "x").length ∧
    ((execP [Op.oon "x" 1, Op.oon "x" 1]).bus.on "x" 1).1 =
      (execP [Op.oon "x" 1, Op.oon "x" 1]).bus :=
  ⟨(listener_count_exact [Op.oon "x" 1, Op.oon "x" 1] "x" envOk []).2.1,
   (listener_count_exact [Op.oon "x" 1, Op.oon "x" 1] "x" envOk []).2.2.1 1 (by decide)⟩

/-! ### The `once` wrapper: removal order and re-entrancy -/

/-- The unsubscribe token `once("x", ·)` creates on a fresh bus when it
registers its wrapper (listener id 2) via `on`. -/
def cexTok : Tok := (Bus.empty.on "x" 2).2

/-- The bus right after `once("x", L)` on a fresh bus: the wrapper
(listener id 2) is registered for `"x"`. -/
def cexBus : Bus := (Bus.empty.on "x" 2).1

/-- The listener environment for the re-entrancy counterexample: id 2 is the
`once` wrapper around the original listener L (id 1); L re-entrantly emits
`"x"` with payload `1` when invoked with payload `0`, and returns normally. -/
def cexEnv : Nat → LKind := fun n =>
  if n = 2 then LKind.wrap 1 cexTok
  else LKind.plain
    (fun p => if p = Val.num 0 then [XAct.xemit "x" [Val.num 1]] else [])
    (fun _ => Except.ok Val.undef)

/-- C1 (amended): the `once` wrapper invokes the original listener L first
and removes itself from the registry afterwards, in the `finally` of
`try { listener(payload) } finally { unsubscribe() }` — so the self-removal
does occur even when L throws, but it happens *after* delegation, not
before: after one emission of the event, L was invoked once with the emitted
payload, the wrapper is no longer registered (the event's identifier is gone
from the registry), and the emission's result is L's own outcome (its error
if it threw). Because removal happens after delegation, a re-entrant
emission during L's invocation still sees the wrapper registered (see the
counterexample). -/
theorem once_cleanup_after_invocation (k : String) (l w : Nat)
    (res : Val → Except Val Val) (p : Val) (hlw : l ≠ w) :
    interp 6 (fun n => if n = w then LKind.wrap l (Bus.empty.on k w).2
        else LKind.plain (fun _ => []) res)
      (Bus.empty.on k w).1 (Req.emitTo k [p]) =
      some (⟨[], [(0, [])], 1⟩,
        [Ev.snap k [w], Ev.invoke w p, Ev.invoke l p],
        match res p with
        | .ok _ => .ok Val.undef
        | .error e => .error e)
  ∧ (Bus.mk [] [(0, [])] 1).listenerCount k = 0 := by
  refine ⟨?_, rfl⟩
  cases hres : res p <;>
    simp [interp, Bus.on, Bus.empty, findSid, getSet, findSet, updateAssoc,
      Bus.unsub, setStore, eraseKey, hlw, hres]

/-- Witness for C1 (amended) at a concrete input: the original listener
throws, yet after the emission it was invoked once, the error escaped, and
the wrapper is gone from the registry. -/
theorem once_cleanup_after_invocation_witness :
    interp 6 (fun n => if n = 2 then LKind.wrap 1 (Bus.empty.on "x" 2).2
        else LKind.plain (fun _ => []) (fun _ => Except.error (Val.str "boom")))
      (Bus.empty.on "x" 2).1 (Req.emitTo "x" [Val.num 5]) =
      some (⟨[], [(0, [])], 1⟩,
        [Ev.snap "x" [2], Ev.invoke 2 (Val.num 5), Ev.invoke 1 (Val.num 5)],
        Except.error (Val.str "boom"))
  ∧ (Bus.mk [] [(0, [])] 1).listenerCount "x" = 0 :=
  once_cleanup_after_invocation "x" 1 2
    (fun _ => Except.error (Val.str "boom")) (Val.num 5) (by decide)

/-- Counterexample to C1 as stated: `once("x", L)` where L re-entrantly
emits `"x"` during its own invocation. The run's trace shows the re-entrant
emission's snapshot still contains the wrapper (listener id 2) — the wrapper
had *not* removed itself before invoking L — and consequently L is invoked
twice (with payloads 0 and 1), violating the claimed removal-first order. -/
theorem once_cleanup_after_invocation_cex :
    (interp 20 cexEnv cexBus (Req.emitTo "x" [Val.num 0])).map (fun r => r.2.1) =
      some [Ev.snap "x" [2], Ev.invoke 2 (Val.num 0), Ev.invoke 1 (Val.num 0),
            Ev.snap "x" [2], Ev.invoke 2 (Val.num 1), Ev.invoke 1 (Val.num 1)] :=
  rfl

end TypedEmit
